import Mathlib

/-!
Verification of the selection-and-rendering pipeline of `code_context`.

The configuration layer (`src/app/config.rs`) and the orchestration
(`src/app.rs`) are embedded directly from the Rust source.  The `scanner`,
`formatter` and `models` modules are declared in `app.rs` but their source
files are not part of the tree, so `PatternSet`, `Scanner` and
`OutputGenerator` are modelled from the specification (each such definition
says so in its doc comment).  Filesystem effects are made explicit: the
directory tree, the presets file and file contents are passed as values.
-/

namespace CodeContext

/-! ## Configuration layer, from `src/app/config.rs` -/

/-- The `Vec::retain` pass of `merge_vecs` (`config.rs` lines 44-47): keep an
element iff `seen.insert(item)` is fresh, i.e. drop every repetition after
the first occurrence.  `seen` carries the already-seen strings. -/
def dedupFirst (seen : List String) : List String → List String
  | [] => []
  | x :: xs => if x ∈ seen then dedupFirst seen xs else x :: dedupFirst (x :: seen) xs

/-- Embeds `merge_vecs` from `config.rs` lines 39-48: concatenate the preset list
and the CLI list (a `None` contributes nothing), then deduplicate keeping
first occurrences. -/
def merge_vecs (preset_vec cli_vec : Option (List String)) : List String :=
  dedupFirst [] (preset_vec.getD [] ++ cli_vec.getD [])

/-- Spec-side formulation for C4: one step of an insertion-order-preserving
set, as the spec's "ordered union" describes. -/
def insertOrdered (acc : List String) (x : String) : List String :=
  if x ∈ acc then acc else acc ++ [x]

/-- Spec-side formulation for C4: the ordered union of the two optional
lists, built with an insertion-order-preserving set. -/
def orderedUnion (preset_vec cli_vec : Option (List String)) : List String :=
  (preset_vec.getD [] ++ cli_vec.getD []).foldl insertOrdered []

theorem dedupFirst_eq_foldl (l : List String) :
    ∀ (seen acc : List String), (∀ x, x ∈ seen ↔ x ∈ acc) →
      l.foldl insertOrdered acc = acc ++ dedupFirst seen l := by
  induction l with
  | nil => intro seen acc _; simp [dedupFirst]
  | cons x xs ih =>
    intro seen acc hiff
    by_cases hx : x ∈ seen
    · have hx' : x ∈ acc := (hiff x).1 hx
      simp only [List.foldl_cons, insertOrdered, if_pos hx', dedupFirst, if_pos hx]
      exact ih seen acc hiff
    · have hx' : x ∉ acc := fun h => hx ((hiff x).2 h)
      simp only [List.foldl_cons, insertOrdered, if_neg hx', dedupFirst, if_neg hx]
      have := ih (x :: seen) (acc ++ [x]) (by
        intro y
        constructor
        · intro hy
          rcases List.mem_cons.1 hy with rfl | hy
          · exact List.mem_append.2 (Or.inr (List.mem_singleton.2 rfl))
          · exact List.mem_append.2 (Or.inl ((hiff y).1 hy))
        · intro hy
          rcases List.mem_append.1 hy with hy | hy
          · exact List.mem_cons.2 (Or.inr ((hiff y).2 hy))
          · exact List.mem_cons.2 (Or.inl (List.mem_singleton.1 hy)))
      rw [this, List.append_assoc]
      rfl

/-! ## Glob matching

Modelled from the spec: the `PatternSet` matcher of the missing `scanner`
module.  Matching is path-relative with slash-separated segments; `**`
matches across directory boundaries (zero or more segments), `*` and `?`
are single-segment wildcards. -/

/-- All suffixes of a list, starting with the list itself. -/
def suffixes {α : Type} : List α → List (List α)
  | [] => [[]]
  | c :: cs => (c :: cs) :: suffixes cs

/-- Modelled from the spec: single-segment wildcard matching (`*` matches
any run of characters inside one segment, `?` one character). -/
def chMatch : List Char → List Char → Bool
  | [], cs => cs.isEmpty
  | '*' :: ps, cs => (suffixes cs).any (fun t => chMatch ps t)
  | '?' :: ps, cs =>
    match cs with
    | [] => false
    | _ :: cs2 => chMatch ps cs2
  | p :: ps, cs =>
    match cs with
    | [] => false
    | c :: cs2 => p == c && chMatch ps cs2

/-- Splits a character list on `/` into segments (accumulator reversed). -/
def splitSegsAux (cur : List Char) : List Char → List (List Char)
  | [] => [cur.reverse]
  | c :: cs => if c = '/' then cur.reverse :: splitSegsAux [] cs else splitSegsAux (c :: cur) cs

/-- Splits a glob pattern string into its slash-separated segments. -/
def splitPat (p : String) : List String :=
  (splitSegsAux [] p.toList).map String.mk

/-- Modelled from the spec: segment-level glob matching, where the segment
`**` matches zero or more path segments (recursive wildcard). -/
def segsMatch : List String → List String → Bool
  | [], ss => ss.isEmpty
  | "**" :: ps, ss => (suffixes ss).any (fun t => segsMatch ps t)
  | p :: ps, ss =>
    match ss with
    | [] => false
    | s :: ss2 => chMatch p.toList s.toList && segsMatch ps ss2

/-- Modelled from the spec: does glob pattern `pat` match the relative path
`path` (given as forward-slash-normalized segments)? -/
def globMatch (pat : String) (path : List String) : Bool :=
  segsMatch (splitPat pat) path

/-- Does any pattern in the list match the path? -/
def matchesAny (pats : List String) (path : List String) : Bool :=
  pats.any (fun p => globMatch p path)

/-- Checks that every `[` character class opened in the pattern is closed;
`inClass` records whether a class is currently open. -/
def bracketsOk (inClass : Bool) : List Char → Bool
  | [] => !inClass
  | c :: cs =>
    if inClass then (if c = ']' then bracketsOk false cs else bracketsOk true cs)
    else (if c = '[' then bracketsOk true cs else bracketsOk false cs)

/-- Modelled from the spec: syntactic validity of a glob pattern (a
malformed glob, e.g. an unclosed character class, is invalid). -/
def patternOk (p : String) : Bool :=
  bracketsOk false p.toList

/-- The first syntactically invalid pattern in a list, if any. -/
def firstInvalid (pats : List String) : Option String :=
  pats.find? (fun p => !patternOk p)

/-! ## Data model -/

/-- The `RuntimeConfig` struct of the missing `models` module, modelled from the
spec's §6 external interface. -/
structure RuntimeConfig where
  «include» : List String
  exclude : List String
  include_in_tree : List String
  tree_only_output : Bool
deriving Repr, DecidableEq

/-- The `Entry` struct of the missing `models` module, modelled from the spec's §3
data model: relative path as forward-slash-normalized segments, directory
flag, and content eligibility. -/
structure Entry where
  path : List String
  is_dir : Bool
  include_content : Bool
deriving Repr, DecidableEq

/-- Pipeline errors (spec §7): an invalid glob pattern is a `ConfigError`
carrying the offending pattern string. -/
inductive GenError where
  | configError (pat : String)
deriving Repr, DecidableEq

mutual
/-- A filesystem value: the directory tree handed to the scanner.  A
symlink stores only its target string, never a subtree, so a
self-referential or cyclic symlink is representable while the value stays
finite. -/
inductive FSNode where
  | file (name : String) (contents : String)
  | symlink (name : String) (target : String)
  | dir (name : String) (children : FSList)
deriving Repr

/-- The children of a directory. -/
inductive FSList where
  | nil
  | cons (hd : FSNode) (tl : FSList)
deriving Repr
end

/-- The children of a directory, as an ordinary list. -/
def FSList.toList : FSList → List FSNode
  | .nil => []
  | .cons c cs => c :: cs.toList

/-- Builds directory children from an ordinary list. -/
def FSList.ofList : List FSNode → FSList
  | [] => .nil
  | c :: cs => .cons c (FSList.ofList cs)

/-- The name of a filesystem node. -/
def nodeName : FSNode → String
  | .file n _ => n
  | .symlink n _ => n
  | .dir n _ => n

/-- Kernel-reducible lexicographic comparison on character lists. -/
def lexLe : List Char → List Char → Bool
  | [], _ => true
  | _ :: _, [] => false
  | a :: as, b :: bs => a.toNat < b.toNat || (a.toNat == b.toNat && lexLe as bs)

/-- Byte-order comparison of strings (spec §4.2: case-sensitive byte-order
comparison). -/
def strLe (a b : String) : Bool :=
  lexLe a.toList b.toList

/-- Lexicographic order on segment paths: a parent directory path sorts
before every path beneath it, siblings sort by byte order. -/
def pathLe : List String → List String → Bool
  | [], _ => true
  | _ :: _, [] => false
  | a :: as, b :: bs => if a = b then pathLe as bs else strLe a b

/-- Insertion step of the deterministic entry sort. -/
def insertEntry (x : Entry) : List Entry → List Entry
  | [] => [x]
  | y :: ys => if pathLe x.path y.path then x :: y :: ys else y :: insertEntry x ys

/-- Deterministic sort of the scanned entries by path (spec §4.2: a stable
lexicographic order independent of filesystem iteration order). -/
def sortEntries : List Entry → List Entry
  | [] => []
  | x :: xs => insertEntry x (sortEntries xs)

theorem mem_insertEntry (x a : Entry) (l : List Entry) :
    a ∈ insertEntry x l ↔ a = x ∨ a ∈ l := by
  induction l with
  | nil => simp [insertEntry]
  | cons y ys ih =>
    simp only [insertEntry]
    by_cases h : pathLe x.path y.path
    · simp [h]
    · simp [h, ih]
      tauto

theorem mem_sortEntries (a : Entry) (l : List Entry) :
    a ∈ sortEntries l ↔ a ∈ l := by
  induction l with
  | nil => simp [sortEntries]
  | cons x xs ih =>
    simp [sortEntries, mem_insertEntry, ih]

/-- No string occurs twice in the list (sibling names in a real directory
are distinct). -/
def allDistinct : List String → Bool
  | [] => true
  | x :: xs => !(xs.contains x) && allDistinct xs

mutual
/-- A filesystem value is well formed when sibling names are distinct in
every directory, as they are on a real filesystem. -/
def wellFormed : FSNode → Bool
  | .file _ _ => true
  | .symlink _ _ => true
  | .dir _ children => allDistinct (children.toList.map nodeName) && wellFormedList children

/-- Extends `wellFormed` over a directory's children. -/
def wellFormedList : FSList → Bool
  | .nil => true
  | .cons c cs => wellFormed c && wellFormedList cs
end

/-! ## Scanner

Modelled from the spec: the missing `scanner` module.  One deterministic
traversal; the precedence policy of §4.1 is applied per candidate path:
exclude first, then include, then include-in-tree; an excluded directory is
never descended into; a symlink is a leaf entry and is never recursed
through; a directory entry is retained only to render tree structure, i.e.
when its subtree contributed entries. -/

/-- The compiled pattern sets of the scanner. -/
structure PatternSet where
  «include» : List String
  exclude : List String
  include_in_tree : List String
deriving Repr, DecidableEq

/-- Modelled from the spec (§4.1 precedence policy) for a leaf at relative
path `p`: exclude first, then include (content-includable), then
include-in-tree (tree-only), else not selected. -/
def leafEntries (ps : PatternSet) (p : List String) : List Entry :=
  if matchesAny ps.exclude p then []
  else if matchesAny ps.«include» p then [⟨p, false, true⟩]
  else if matchesAny ps.include_in_tree p then [⟨p, false, false⟩]
  else []

mutual
/-- Modelled from the spec: scans one node.  `parent` is the relative path
(in segments) of the directory containing `node`.  An excluded directory
is never descended into; a symlink is treated as a leaf; a directory entry
is kept only when its subtree contributed entries. -/
def scanNode (ps : PatternSet) (parent : List String) : FSNode → List Entry
  | .file name _ => leafEntries ps (parent ++ [name])
  | .symlink name _ => leafEntries ps (parent ++ [name])
  | .dir name children =>
    if matchesAny ps.exclude (parent ++ [name]) then []
    else
      let sub := scanChildren ps (parent ++ [name]) children
      if sub.isEmpty then [] else ⟨parent ++ [name], true, false⟩ :: sub

/-- Scans a directory's children in order, concatenating their entries. -/
def scanChildren (ps : PatternSet) (parent : List String) : FSList → List Entry
  | .nil => []
  | .cons c cs => scanNode ps parent c ++ scanChildren ps parent cs
end

/-- The scanner: a root filesystem value plus the compiled patterns, fixed
at construction. -/
structure Scanner where
  root : FSNode
  ps : PatternSet
deriving Repr

/-- Embeds `Scanner::new(root, &config)` — modelled from the spec: compiles the
configured glob lists, failing with `ConfigError` on the first
syntactically invalid pattern, before any traversal. -/
def Scanner.new (root : FSNode) (config : RuntimeConfig) : Except GenError Scanner :=
  match firstInvalid (config.«include» ++ config.exclude ++ config.include_in_tree) with
  | some p => .error (.configError p)
  | none => .ok ⟨root, ⟨config.«include», config.exclude, config.include_in_tree⟩⟩

/-- Embeds `scan()` — modelled from the spec: walks the root directory's children
(entry paths are relative to the root) and returns the entries in the
stable lexicographic path order. -/
def Scanner.scan (s : Scanner) : List Entry :=
  match s.root with
  | .dir _ children => sortEntries (scanChildren s.ps [] children)
  | _ => []

/-! ## OutputGenerator

Modelled from the spec: the missing `formatter` module.  Pure rendering
functions over the already-selected entry list. -/

/-- Renders a segment path with forward slashes. -/
def renderPath (p : List String) : String :=
  String.intercalate "/" p

/-- Modelled from the spec: one tree line per entry — indentation
proportional to depth, a branch connector glyph, then the node's name
(directories marked with a trailing slash). -/
def treeLine (e : Entry) : String :=
  String.join (List.replicate (e.path.length - 1) "    ") ++ "├── "
    ++ (e.path.getLast?.getD "") ++ (if e.is_dir then "/" else "")

/-- Embeds `OutputGenerator::generate_tree(entries)` — modelled from the spec:
renders the visual tree, one line per entry, in the scanner's stable
order. -/
def generate_tree (entries : List Entry) : String :=
  String.intercalate "\n" (entries.map treeLine)

mutual
/-- Looks up the contents of the file at relative path `p` below `node`
(where `p` starts with the node's own name); a symlink or directory at the
path yields nothing. -/
def readFileAt : FSNode → List String → Option String
  | .file name c, p => if p = [name] then some c else none
  | .symlink _ _, _ => none
  | .dir name children, p =>
    match p with
    | [] => none
    | s :: rest => if name = s then readInChildren children rest else none

/-- Looks up relative path `p` among a directory's children. -/
def readInChildren : FSList → List String → Option String
  | .nil, _ => none
  | .cons c cs, p =>
    match readFileAt c p with
    | some v => some v
    | none => readInChildren cs p
end

/-- Looks up the contents of the file at relative path `p` below the scan
root. -/
def readAtRoot (root : FSNode) (p : List String) : Option String :=
  match root with
  | .dir _ children => readInChildren children p
  | _ => none

/-- Modelled from the spec: the content block of one entry — a header
identifying the relative path followed by the raw file contents; an entry
whose bytes cannot be read is skipped (best-effort rendering). -/
def contentBlock (root : FSNode) (e : Entry) : String :=
  match readAtRoot root e.path with
  | some c => "===== " ++ renderPath e.path ++ " =====\n" ++ c ++ "\n\n"
  | none => ""

/-- Embeds `OutputGenerator::generate_content(entries)` — modelled from the spec:
for every entry with `include_content = true`, in the same stable order,
appends a path header followed by the raw file contents. -/
def generate_content (root : FSNode) (entries : List Entry) : String :=
  String.join (entries.map (fun e => if e.include_content then contentBlock root e else ""))

/-- Embeds `OutputGenerator::format_full_output(tree, content)` — modelled from
the spec's §6 artifact format: the tagged tree section followed by the
content section. -/
def format_full_output (tree content : String) : String :=
  "<directory_structure>\n" ++ tree ++ "\n</directory_structure>\n\n" ++ content

mutual
/-- Is there a file (a real file, not a symlink or directory) at relative
path `p` below `node`, where `p` starts with the node's own name? -/
def hasFileAt : FSNode → List String → Bool
  | .file name _, p => p == [name]
  | .symlink _ _, _ => false
  | .dir name children, p =>
    match p with
    | [] => false
    | seg :: rest => name == seg && childHasFileAt children rest

/-- Extends `hasFileAt` over a directory's children. -/
def childHasFileAt : FSList → List String → Bool
  | .nil, _ => false
  | .cons c cs, p => hasFileAt c p || childHasFileAt cs p
end

/-- Is there a file at relative path `p` below the scan root? -/
def rootHasFileAt (root : FSNode) (p : List String) : Bool :=
  match root with
  | .dir _ children => childHasFileAt children p
  | _ => false

mutual
/-- The relative paths of all symlinks below `node` (`parent` is the
relative path of the directory containing `node`). -/
def symlinkPathsN (parent : List String) : FSNode → List (List String)
  | .file _ _ => []
  | .symlink name _ => [parent ++ [name]]
  | .dir name children => symlinkPathsL (parent ++ [name]) children

/-- Extends `symlinkPathsN` over a directory's children. -/
def symlinkPathsL (parent : List String) : FSList → List (List String)
  | .nil => []
  | .cons c cs => symlinkPathsN parent c ++ symlinkPathsL parent cs
end

/-- The relative paths of all symlinks below the scan root. -/
def symlinkPathsRoot (root : FSNode) : List (List String) :=
  match root with
  | .dir _ children => symlinkPathsL [] children
  | _ => []

/-! ## Pipeline entrypoint, from `src/app.rs` -/

/-- Embeds `generate(config, root)` from `app.rs` lines 21-43: build the scanner
(propagating its error), scan, return `Ok("")` on an empty selection,
otherwise emit either the tree-only wrapped form or the full composed
artifact. -/
def generate (config : RuntimeConfig) (root : FSNode) : Except GenError String :=
  match Scanner.new root config with
  | .error e => .error e
  | .ok scanner =>
    let entries := scanner.scan
    if entries.isEmpty then .ok ""
    else
      let tree_str := generate_tree entries
      if config.tree_only_output then
        .ok ("<directory_structure>\n" ++ tree_str ++ "\n</directory_structure>")
      else
        .ok (format_full_output tree_str (generate_content root entries))

/-! ## Presets layer, from `src/app/config.rs` -/

/-- The `PresetConfig` struct from `config.rs` lines 14-19. -/
structure PresetConfig where
  «include» : Option (List String)
  exclude : Option (List String)
  include_in_tree : Option (List String)
deriving Repr, DecidableEq

/-- The `Default` of `PresetConfig`: every field `None`. -/
def PresetConfig.default : PresetConfig :=
  ⟨none, none, none⟩

/-- The state of `~/.config/code_context/presets.toml` on disk, made
explicit: the file is absent, or present with a parse outcome. -/
inductive PresetsFileState where
  | noFile
  | file (parsed : Except String (List (String × PresetConfig)))
deriving Repr

/-- Embeds `load_presets_file` from `config.rs` lines 21-37: a missing file
yields an empty preset map; a present file yields its parsed map, or an
error when parsing fails. -/
def load_presets_file : PresetsFileState → Except GenError (List (String × PresetConfig))
  | .noFile => .ok []
  | .file (.ok m) => .ok m
  | .file (.error e) => .error (.configError e)

/-- Performs `HashMap::get` on the preset map. -/
def lookupPreset (m : List (String × PresetConfig)) (k : String) : Option PresetConfig :=
  (m.find? (fun kv => kv.1 == k)).map (fun kv => kv.2)

/-- Embeds `build_config` from `config.rs` lines 52-75: load the presets, look up
the named preset (absent name or absent entry falls back to the default),
and merge each preset list with the corresponding passed list. -/
def build_config (env : PresetsFileState) (preset_name : Option String)
    («include» exclude include_in_tree : Option (List String)) (tree_only : Bool) :
    Except GenError RuntimeConfig :=
  match load_presets_file env with
  | .error e => .error e
  | .ok presets =>
    let preset := (preset_name.bind (lookupPreset presets)).getD PresetConfig.default
    .ok { «include» := merge_vecs preset.«include» «include»,
          exclude := merge_vecs preset.exclude exclude,
          include_in_tree := merge_vecs preset.include_in_tree include_in_tree,
          tree_only_output := tree_only }

/-! ## Supporting lemmas on the scanner -/

theorem leafEntries_spec (ps : PatternSet) (p : List String) (e : Entry)
    (h : e ∈ leafEntries ps p) :
    e.path = p ∧ e.is_dir = false ∧ matchesAny ps.exclude p = false ∧
      e.include_content = matchesAny ps.«include» p := by
  unfold leafEntries at h
  by_cases h1 : matchesAny ps.exclude p = true
  · simp [h1] at h
  · rw [Bool.not_eq_true] at h1
    by_cases h2 : matchesAny ps.«include» p = true
    · simp only [h1, h2, if_true, if_false, Bool.false_eq_true, List.mem_singleton] at h
      subst h
      exact ⟨rfl, rfl, h1, h2.symm⟩
    · rw [Bool.not_eq_true] at h2
      by_cases h3 : matchesAny ps.include_in_tree p = true
      · simp only [h1, h2, h3, if_true, if_false, Bool.false_eq_true, List.mem_singleton] at h
        subst h
        exact ⟨rfl, rfl, h1, h2.symm⟩
      · rw [Bool.not_eq_true] at h3
        simp [h1, h2, h3] at h

theorem leafEntries_exists (ps : PatternSet) (p : List String)
    (hex : matchesAny ps.exclude p = false)
    (hsel : matchesAny ps.«include» p = true ∨ matchesAny ps.include_in_tree p = true) :
    (⟨p, false, matchesAny ps.«include» p⟩ : Entry) ∈ leafEntries ps p := by
  unfold leafEntries
  rcases hsel with h2 | h3
  · simp [hex, h2]
  · by_cases h2 : matchesAny ps.«include» p = true
    · simp [hex, h2]
    · rw [Bool.not_eq_true] at h2
      simp [hex, h2, h3]

mutual

theorem scanNode_spec (ps : PatternSet) (parent : List String) (node : FSNode) :
    ∀ e ∈ scanNode ps parent node,
      matchesAny ps.exclude e.path = false ∧
        (e.include_content = true → matchesAny ps.«include» e.path = true) := by
  cases node with
  | file name c =>
    intro e he
    have h := leafEntries_spec ps (parent ++ [name]) e he
    exact ⟨h.1 ▸ h.2.2.1, fun hc => by rw [h.1]; rw [← h.2.2.2]; exact hc⟩
  | symlink name t =>
    intro e he
    have h := leafEntries_spec ps (parent ++ [name]) e he
    exact ⟨h.1 ▸ h.2.2.1, fun hc => by rw [h.1]; rw [← h.2.2.2]; exact hc⟩
  | dir name children =>
    intro e he
    rw [scanNode] at he
    by_cases hex : matchesAny ps.exclude (parent ++ [name]) = true
    · simp [hex] at he
    · rw [Bool.not_eq_true] at hex
      simp only [hex, Bool.false_eq_true, if_false] at he
      by_cases hsub : (scanChildren ps (parent ++ [name]) children).isEmpty = true
      · simp [hsub] at he
      · simp [hex, hsub, List.mem_cons] at he
        rcases he with he | he
        · subst he
          exact ⟨hex, fun hc => by simp at hc⟩
        · exact scanChildren_spec ps (parent ++ [name]) children e he

theorem scanChildren_spec (ps : PatternSet) (parent : List String) (l : FSList) :
    ∀ e ∈ scanChildren ps parent l,
      matchesAny ps.exclude e.path = false ∧
        (e.include_content = true → matchesAny ps.«include» e.path = true) := by
  cases l with
  | nil => intro e he; rw [scanChildren] at he; simp at he
  | cons c cs =>
    intro e he
    rw [scanChildren] at he
    rcases List.mem_append.1 he with he | he
    · exact scanNode_spec ps parent c e he
    · exact scanChildren_spec ps parent cs e he

end

theorem scanNode_dir_not_excluded (ps : PatternSet) (parent : List String) (name : String)
    (children : FSList) (hex : matchesAny ps.exclude (parent ++ [name]) = false) :
    scanNode ps parent (.dir name children) =
      (if (scanChildren ps (parent ++ [name]) children).isEmpty then []
       else ⟨parent ++ [name], true, false⟩ :: scanChildren ps (parent ++ [name]) children) := by
  rw [scanNode, if_neg]
  simp [hex]

mutual

theorem scanNode_finds_file (ps : PatternSet) (parent : List String) (node : FSNode)
    (p : List String) (hf : hasFileAt node p = true)
    (hanc : ∀ q, q ≠ [] → q <+: p → matchesAny ps.exclude (parent ++ q) = false)
    (hsel : matchesAny ps.«include» (parent ++ p) = true ∨
      matchesAny ps.include_in_tree (parent ++ p) = true) :
    (⟨parent ++ p, false, matchesAny ps.«include» (parent ++ p)⟩ : Entry) ∈
      scanNode ps parent node := by
  cases node with
  | file name c =>
    rw [hasFileAt] at hf
    have hp : p = [name] := eq_of_beq hf
    subst hp
    rw [scanNode]
    exact leafEntries_exists ps (parent ++ [name])
      (hanc [name] (by simp) (List.prefix_refl _)) hsel
  | symlink name t =>
    rw [hasFileAt] at hf
    exact absurd hf (by simp)
  | dir name children =>
    cases p with
    | nil => rw [hasFileAt] at hf; simp at hf
    | cons seg rest =>
      rw [hasFileAt, Bool.and_eq_true] at hf
      obtain ⟨hname, hchild⟩ := hf
      have hname' : name = seg := eq_of_beq hname
      subst hname'
      have hassoc : parent ++ name :: rest = (parent ++ [name]) ++ rest := by simp
      have hex : matchesAny ps.exclude (parent ++ [name]) = false :=
        hanc [name] (by simp) ⟨rest, rfl⟩
      have hanc' : ∀ q, q ≠ [] → q <+: rest →
          matchesAny ps.exclude ((parent ++ [name]) ++ q) = false := by
        intro q hne hq
        obtain ⟨t, ht⟩ := hq
        have h1 : (name :: q) <+: (name :: rest) := ⟨t, by rw [← ht]; rfl⟩
        have h2 := hanc (name :: q) (by simp) h1
        rw [show parent ++ name :: q = (parent ++ [name]) ++ q by simp] at h2
        exact h2
      have hsel' : matchesAny ps.«include» ((parent ++ [name]) ++ rest) = true ∨
          matchesAny ps.include_in_tree ((parent ++ [name]) ++ rest) = true := by
        rw [← hassoc]; exact hsel
      have hmem := scanChildren_finds_file ps (parent ++ [name]) children rest hchild hanc' hsel'
      rw [scanNode_dir_not_excluded ps parent name children hex]
      have hne : (scanChildren ps (parent ++ [name]) children).isEmpty = false := by
        cases h : scanChildren ps (parent ++ [name]) children with
        | nil => rw [h] at hmem; simp at hmem
        | cons a l => rfl
      rw [hne]
      simp only [Bool.false_eq_true, if_false]
      rw [show (⟨parent ++ name :: rest, false,
        matchesAny ps.«include» (parent ++ name :: rest)⟩ : Entry) =
        ⟨(parent ++ [name]) ++ rest, false,
          matchesAny ps.«include» ((parent ++ [name]) ++ rest)⟩ by rw [hassoc]]
      exact List.mem_cons_of_mem _ hmem

theorem scanChildren_finds_file (ps : PatternSet) (parent : List String) (l : FSList)
    (p : List String) (hf : childHasFileAt l p = true)
    (hanc : ∀ q, q ≠ [] → q <+: p → matchesAny ps.exclude (parent ++ q) = false)
    (hsel : matchesAny ps.«include» (parent ++ p) = true ∨
      matchesAny ps.include_in_tree (parent ++ p) = true) :
    (⟨parent ++ p, false, matchesAny ps.«include» (parent ++ p)⟩ : Entry) ∈
      scanChildren ps parent l := by
  cases l with
  | nil => rw [childHasFileAt] at hf; simp at hf
  | cons c cs =>
    rw [childHasFileAt, Bool.or_eq_true] at hf
    rw [scanChildren]
    rcases hf with h | h
    · exact List.mem_append.2 (Or.inl (scanNode_finds_file ps parent c p h hanc hsel))
    · exact List.mem_append.2 (Or.inr (scanChildren_finds_file ps parent cs p h hanc hsel))

end

theorem sizeOf_lt_of_mem_toList (l : FSList) (c : FSNode) (hc : c ∈ l.toList) :
    sizeOf c < sizeOf l := by
  cases l with
  | nil => rw [FSList.toList] at hc; simp at hc
  | cons hd tl =>
    rw [FSList.toList] at hc
    have hsz : sizeOf (FSList.cons hd tl) = 1 + sizeOf hd + sizeOf tl := rfl
    rcases List.mem_cons.1 hc with rfl | h
    · omega
    · have := sizeOf_lt_of_mem_toList tl c h
      omega

theorem mem_scanChildren_decomp (ps : PatternSet) (parent : List String) (l : FSList)
    (e : Entry) (he : e ∈ scanChildren ps parent l) :
    ∃ c ∈ l.toList, e ∈ scanNode ps parent c := by
  cases l with
  | nil => rw [scanChildren] at he; simp at he
  | cons c cs =>
    rw [scanChildren] at he
    rcases List.mem_append.1 he with h | h
    · exact ⟨c, by simp [FSList.toList], h⟩
    · obtain ⟨c', hc', h'⟩ := mem_scanChildren_decomp ps parent cs e h
      exact ⟨c', by simp [FSList.toList, hc'], h'⟩

theorem mem_symlinkPathsL_decomp (parent : List String) (l : FSList)
    (sp : List String) (hsp : sp ∈ symlinkPathsL parent l) :
    ∃ c ∈ l.toList, sp ∈ symlinkPathsN parent c := by
  cases l with
  | nil => rw [symlinkPathsL] at hsp; simp at hsp
  | cons c cs =>
    rw [symlinkPathsL] at hsp
    rcases List.mem_append.1 hsp with h | h
    · exact ⟨c, by simp [FSList.toList], h⟩
    · obtain ⟨c', hc', h'⟩ := mem_symlinkPathsL_decomp parent cs sp h
      exact ⟨c', by simp [FSList.toList, hc'], h'⟩

mutual

theorem scanNode_path_shape (ps : PatternSet) (parent : List String) (node : FSNode) :
    ∀ e ∈ scanNode ps parent node, ∃ rest, e.path = parent ++ nodeName node :: rest := by
  cases node with
  | file name c =>
    intro e he
    rw [scanNode] at he
    exact ⟨[], (leafEntries_spec ps (parent ++ [name]) e he).1⟩
  | symlink name t =>
    intro e he
    rw [scanNode] at he
    exact ⟨[], (leafEntries_spec ps (parent ++ [name]) e he).1⟩
  | dir name children =>
    intro e he
    rw [scanNode] at he
    by_cases hex : matchesAny ps.exclude (parent ++ [name]) = true
    · simp [hex] at he
    · rw [Bool.not_eq_true] at hex
      by_cases hsub : (scanChildren ps (parent ++ [name]) children).isEmpty = true
      · simp [hex, hsub] at he
      · simp [hex, hsub] at he
        rcases he with he | he
        · exact ⟨[], by rw [he]; simp [nodeName]⟩
        · obtain ⟨seg, rest, hrest⟩ :=
            scanChildren_path_shape ps (parent ++ [name]) children e he
          exact ⟨seg :: rest, by rw [hrest]; simp [nodeName]⟩

theorem scanChildren_path_shape (ps : PatternSet) (parent : List String) (l : FSList) :
    ∀ e ∈ scanChildren ps parent l, ∃ seg rest, e.path = parent ++ seg :: rest := by
  cases l with
  | nil => intro e he; rw [scanChildren] at he; simp at he
  | cons c cs =>
    intro e he
    rw [scanChildren] at he
    rcases List.mem_append.1 he with h | h
    · obtain ⟨rest, hrest⟩ := scanNode_path_shape ps parent c e h
      exact ⟨nodeName c, rest, hrest⟩
    · exact scanChildren_path_shape ps parent cs e h

end

mutual

theorem symlinkPathsN_shape (parent : List String) (node : FSNode) :
    ∀ sp ∈ symlinkPathsN parent node, ∃ rest, sp = parent ++ nodeName node :: rest := by
  cases node with
  | file name c => intro sp hsp; rw [symlinkPathsN] at hsp; simp at hsp
  | symlink name t =>
    intro sp hsp
    rw [symlinkPathsN] at hsp
    have h : sp = parent ++ [name] := by simpa using hsp
    exact ⟨[], h⟩
  | dir name children =>
    intro sp hsp
    rw [symlinkPathsN] at hsp
    obtain ⟨seg, rest, hrest⟩ := symlinkPathsL_shape (parent ++ [name]) children sp hsp
    exact ⟨seg :: rest, by rw [hrest]; simp [nodeName]⟩

theorem symlinkPathsL_shape (parent : List String) (l : FSList) :
    ∀ sp ∈ symlinkPathsL parent l, ∃ seg rest, sp = parent ++ seg :: rest := by
  cases l with
  | nil => intro sp hsp; rw [symlinkPathsL] at hsp; simp at hsp
  | cons c cs =>
    intro sp hsp
    rw [symlinkPathsL] at hsp
    rcases List.mem_append.1 hsp with h | h
    · obtain ⟨rest, hrest⟩ := symlinkPathsN_shape parent c sp h
      exact ⟨nodeName c, rest, hrest⟩
    · exact symlinkPathsL_shape parent cs sp h

end

theorem allDistinct_inj {α : Type} (f : α → String) (l : List α)
    (h : allDistinct (l.map f) = true) :
    ∀ a ∈ l, ∀ b ∈ l, f a = f b → a = b := by
  induction l with
  | nil => simp
  | cons x xs ih =>
    rw [List.map_cons, allDistinct, Bool.and_eq_true] at h
    obtain ⟨hnc, hrest⟩ := h
    have hnotin : f x ∉ xs.map f := by simpa using hnc
    intro a ha b hb hfab
    rcases List.mem_cons.1 ha with rfl | ha2 <;> rcases List.mem_cons.1 hb with rfl | hb2
    · rfl
    · exfalso
      apply hnotin
      rw [hfab]
      exact List.mem_map_of_mem f hb2
    · exfalso
      apply hnotin
      rw [← hfab]
      exact List.mem_map_of_mem f ha2
    · exact ih hrest a ha2 b hb2 hfab

theorem wellFormedList_mem (l : FSList) (h : wellFormedList l = true) :
    ∀ c ∈ l.toList, wellFormed c = true := by
  cases l with
  | nil => simp [FSList.toList]
  | cons hd tl =>
    rw [wellFormedList, Bool.and_eq_true] at h
    intro c hc
    rw [FSList.toList] at hc
    rcases List.mem_cons.1 hc with rfl | h2
    · exact h.1
    · exact wellFormedList_mem tl h.2 c h2

theorem wellFormed_dir (name : String) (children : FSList)
    (h : wellFormed (.dir name children) = true) :
    allDistinct (children.toList.map nodeName) = true ∧
      ∀ c ∈ children.toList, wellFormed c = true := by
  rw [wellFormed, Bool.and_eq_true] at h
  exact ⟨h.1, wellFormedList_mem children h.2⟩

theorem seg_clash (P : List String) (x : String) (xs : List String) (y : String)
    (ys : List String) (hne : x ≠ y) (sp q : List String)
    (hsp : sp = P ++ x :: xs) (hq : q = P ++ y :: ys) :
    ¬ sp <+: q ∧ sp ≠ q := by
  constructor
  · rintro ⟨u, hu⟩
    rw [hsp, hq, List.append_assoc] at hu
    have h2 := List.append_cancel_left hu
    rw [List.cons_append] at h2
    injection h2 with h3 _
    exact hne h3
  · intro hEq
    rw [hsp, hq] at hEq
    have h2 := List.append_cancel_left hEq
    injection h2 with h3 _
    exact hne h3

mutual

theorem scanNode_no_descend (ps : PatternSet) (parent : List String) (node : FSNode)
    (hwf : wellFormed node = true) :
    ∀ sp ∈ symlinkPathsN parent node, ∀ e ∈ scanNode ps parent node,
      ¬(sp <+: e.path ∧ sp.length < e.path.length) ∧ (e.path = sp → e.is_dir = false) := by
  cases node with
  | file name c => intro sp hsp; rw [symlinkPathsN] at hsp; simp at hsp
  | symlink name t =>
    intro sp hsp e he
    rw [symlinkPathsN] at hsp
    have hsp' : sp = parent ++ [name] := by simpa using hsp
    rw [scanNode] at he
    have h := leafEntries_spec ps (parent ++ [name]) e he
    constructor
    · rintro ⟨hpre, hlt⟩
      rw [hsp', h.1] at hlt
      omega
    · intro _
      exact h.2.1
  | dir name children =>
    intro sp hsp e he
    rw [wellFormed, Bool.and_eq_true] at hwf
    obtain ⟨hdist, hwfl⟩ := hwf
    rw [symlinkPathsN] at hsp
    rw [scanNode] at he
    by_cases hex : matchesAny ps.exclude (parent ++ [name]) = true
    · simp [hex] at he
    · rw [Bool.not_eq_true] at hex
      by_cases hsub : (scanChildren ps (parent ++ [name]) children).isEmpty = true
      · simp [hex, hsub] at he
      · simp [hex, hsub] at he
        rcases he with he | he
        · subst he
          obtain ⟨seg, rest, hshape⟩ := symlinkPathsL_shape (parent ++ [name]) children sp hsp
          constructor
          · rintro ⟨hpre, hlt⟩
            have hle := hpre.length_le
            rw [hshape] at hle
            simp [List.length_append] at hle
          · intro hpe
            exfalso
            rw [hshape] at hpe
            have := congrArg List.length hpe
            simp [List.length_append] at this
        · exact scanChildren_no_descend ps (parent ++ [name]) children hdist hwfl sp hsp e he

theorem scanChildren_no_descend (ps : PatternSet) (parent : List String) (l : FSList)
    (hdist : allDistinct (l.toList.map nodeName) = true) (hwfl : wellFormedList l = true) :
    ∀ sp ∈ symlinkPathsL parent l, ∀ e ∈ scanChildren ps parent l,
      ¬(sp <+: e.path ∧ sp.length < e.path.length) ∧ (e.path = sp → e.is_dir = false) := by
  cases l with
  | nil => intro sp hsp; rw [symlinkPathsL] at hsp; simp at hsp
  | cons c cs =>
    intro sp hsp e he
    rw [symlinkPathsL] at hsp
    rw [scanChildren] at he
    rw [FSList.toList, List.map_cons, allDistinct, Bool.and_eq_true] at hdist
    obtain ⟨hnotin, hdist'⟩ := hdist
    have hnotin' : nodeName c ∉ cs.toList.map nodeName := by simpa using hnotin
    rw [wellFormedList, Bool.and_eq_true] at hwfl
    obtain ⟨hwfc, hwfcs⟩ := hwfl
    rcases List.mem_append.1 hsp with hspc | hspcs <;> rcases List.mem_append.1 he with hec | hecs
    · exact scanNode_no_descend ps parent c hwfc sp hspc e hec
    · obtain ⟨restS, hrestS⟩ := symlinkPathsN_shape parent c sp hspc
      obtain ⟨c', hc', hec'⟩ := mem_scanChildren_decomp ps parent cs e hecs
      obtain ⟨restE, hrestE⟩ := scanNode_path_shape ps parent c' e hec'
      have hne : nodeName c ≠ nodeName c' := by
        intro hEq
        apply hnotin'
        rw [hEq]
        exact List.mem_map_of_mem _ hc'
      have hclash := seg_clash parent (nodeName c) restS (nodeName c') restE hne
        sp e.path hrestS hrestE
      exact ⟨fun hpl => hclash.1 hpl.1, fun hpe => (hclash.2 hpe.symm).elim⟩
    · obtain ⟨c'', hc'', hsp''⟩ := mem_symlinkPathsL_decomp parent cs sp hspcs
      obtain ⟨restS, hrestS⟩ := symlinkPathsN_shape parent c'' sp hsp''
      obtain ⟨restE, hrestE⟩ := scanNode_path_shape ps parent c e hec
      have hne : nodeName c'' ≠ nodeName c := by
        intro hEq
        apply hnotin'
        rw [← hEq]
        exact List.mem_map_of_mem _ hc''
      have hclash := seg_clash parent (nodeName c'') restS (nodeName c) restE hne
        sp e.path hrestS hrestE
      exact ⟨fun hpl => hclash.1 hpl.1, fun hpe => (hclash.2 hpe.symm).elim⟩
    · exact scanChildren_no_descend ps parent cs hdist' hwfcs sp hspcs e hecs

end

theorem Scanner.new_ok (root : FSNode) (cfg : RuntimeConfig) (s : Scanner)
    (h : Scanner.new root cfg = .ok s) :
    s.root = root ∧ s.ps = ⟨cfg.«include», cfg.exclude, cfg.include_in_tree⟩ := by
  unfold Scanner.new at h
  cases hf : firstInvalid (cfg.«include» ++ cfg.exclude ++ cfg.include_in_tree) with
  | some p => rw [hf] at h; simp at h
  | none =>
    rw [hf] at h
    injection h with h
    subst h
    exact ⟨rfl, rfl⟩

/-- The paths listed by the tree section: one tree line is rendered per
scanned entry. -/
def treePaths (entries : List Entry) : List (List String) :=
  entries.map Entry.path

/-- The paths whose bytes the content section renders: the entries with
`include_content = true`. -/
def contentPaths (entries : List Entry) : List (List String) :=
  (entries.filter (fun e => e.include_content)).map Entry.path

theorem scan_not_excluded (cfg : RuntimeConfig) (root : FSNode) (s : Scanner)
    (hnew : Scanner.new root cfg = .ok s) :
    ∀ e ∈ s.scan, matchesAny cfg.exclude e.path = false := by
  obtain ⟨hr, hps⟩ := Scanner.new_ok root cfg s hnew
  intro e he
  unfold Scanner.scan at he
  cases hroot : s.root with
  | file n c => rw [hroot] at he; simp at he
  | symlink n t => rw [hroot] at he; simp at he
  | dir n children =>
    rw [hroot] at he
    have hmem := (mem_sortEntries e _).1 he
    have h2 := (scanChildren_spec s.ps [] children e hmem).1
    rw [hps] at h2
    exact h2

theorem scan_content_implies_include (cfg : RuntimeConfig) (root : FSNode) (s : Scanner)
    (hnew : Scanner.new root cfg = .ok s) :
    ∀ e ∈ s.scan, e.include_content = true → matchesAny cfg.«include» e.path = true := by
  obtain ⟨hr, hps⟩ := Scanner.new_ok root cfg s hnew
  intro e he hc
  unfold Scanner.scan at he
  cases hroot : s.root with
  | file n c => rw [hroot] at he; simp at he
  | symlink n t => rw [hroot] at he; simp at he
  | dir n children =>
    rw [hroot] at he
    have hmem := (mem_sortEntries e _).1 he
    have h2 := (scanChildren_spec s.ps [] children e hmem).2 hc
    rw [hps] at h2
    exact h2

/-! ## Claim theorems -/

/-- C1: for every pattern set and candidate relative path, if any exclude
pattern matches the path then the path appears in neither the tree section
(`treePaths`, the paths rendered as tree lines) nor the content section
(`contentPaths`, the paths whose bytes are concatenated), even if it also
matches an include or include-in-tree pattern: exclude strictly dominates
both surfaces. -/
theorem exclude_dominates_both_surfaces (cfg : RuntimeConfig) (root : FSNode) (s : Scanner)
    (p : List String) (hnew : Scanner.new root cfg = .ok s)
    (hex : matchesAny cfg.exclude p = true) :
    p ∉ treePaths s.scan ∧ p ∉ contentPaths s.scan := by
  have key := scan_not_excluded cfg root s hnew
  constructor
  · intro hmem
    obtain ⟨e, he, hep⟩ := List.mem_map.1 hmem
    have := key e he
    rw [hep, hex] at this
    exact Bool.true_eq_false.mp this
  · intro hmem
    obtain ⟨e, he, hep⟩ := List.mem_map.1 hmem
    have := key e (List.mem_of_mem_filter he)
    rw [hep, hex] at this
    exact Bool.true_eq_false.mp this

/-- Witness data for C1: `secret.txt` matches both the include pattern and
the exclude pattern. -/
def wit1Root : FSNode :=
  .dir "root" (.cons (.file "secret.txt" "S") (.cons (.file "a.txt" "A") .nil))

/-- Witness configuration for C1. -/
def wit1Cfg : RuntimeConfig := ⟨["**/*"], ["secret.txt"], [], false⟩

/-- Witness scanner for C1. -/
def wit1Scanner : Scanner := ⟨wit1Root, ⟨["**/*"], ["secret.txt"], []⟩⟩

/-- Witness for C1 at a concrete filesystem and configuration. -/
theorem exclude_dominates_both_surfaces_witness :
    Scanner.new wit1Root wit1Cfg = .ok wit1Scanner ∧
      matchesAny wit1Cfg.exclude ["secret.txt"] = true ∧
      (["secret.txt"] ∉ treePaths wit1Scanner.scan ∧
        ["secret.txt"] ∉ contentPaths wit1Scanner.scan) :=
  ⟨rfl, by decide,
    exclude_dominates_both_surfaces wit1Cfg wit1Root wit1Scanner ["secret.txt"] rfl (by decide)⟩

/-- C2: whenever the scan selects zero entries, `generate` returns `Ok`
with the empty string — an empty selection is a valid outcome, never an
error (`app.rs` lines 26-28). -/
theorem generate_empty_selection_ok (cfg : RuntimeConfig) (root : FSNode) (s : Scanner)
    (hnew : Scanner.new root cfg = .ok s) (hempty : s.scan = []) :
    generate cfg root = .ok "" := by
  unfold generate
  rw [hnew]
  simp [hempty]

/-- Witness filesystem for C2: nothing matches `*.rs`. -/
def wit2Root : FSNode := .dir "root" (.cons (.file "a.txt" "A") .nil)

/-- Witness configuration for C2. -/
def wit2Cfg : RuntimeConfig := ⟨["*.rs"], [], [], false⟩

/-- Witness scanner for C2. -/
def wit2Scanner : Scanner := ⟨wit2Root, ⟨["*.rs"], [], []⟩⟩

/-- Witness for C2: no file matches, and `generate` yields `Ok("")`. -/
theorem generate_empty_selection_ok_witness :
    Scanner.new wit2Root wit2Cfg = .ok wit2Scanner ∧
      wit2Scanner.scan = [] ∧ generate wit2Cfg wit2Root = .ok "" :=
  ⟨rfl, by decide, generate_empty_selection_ok wit2Cfg wit2Root wit2Scanner rfl (by decide)⟩

/-- C3: with `tree_only_output = true` and a non-empty entry list, the
output is exactly the tree string wrapped in `<directory_structure>` tags
and nothing else — in particular `generate_content` contributes nothing to
it (`app.rs` lines 31-40). -/
theorem generate_tree_only_output (cfg : RuntimeConfig) (root : FSNode) (s : Scanner)
    (hnew : Scanner.new root cfg = .ok s) (htree : cfg.tree_only_output = true)
    (hne : s.scan ≠ []) :
    generate cfg root =
      .ok ("<directory_structure>\n" ++ generate_tree s.scan ++ "\n</directory_structure>") := by
  unfold generate
  rw [hnew]
  have h1 : s.scan.isEmpty = false := by
    cases h : s.scan with
    | nil => exact absurd h hne
    | cons a l => rfl
  simp [h1, htree]

/-- Witness filesystem for C3. -/
def wit3Root : FSNode := .dir "root" (.cons (.file "a.txt" "A") .nil)

/-- Witness configuration for C3: tree-only output requested. -/
def wit3Cfg : RuntimeConfig := ⟨["a.txt"], [], [], true⟩

/-- Witness scanner for C3. -/
def wit3Scanner : Scanner := ⟨wit3Root, ⟨["a.txt"], [], []⟩⟩

/-- Witness for C3 at a concrete filesystem and configuration. -/
theorem generate_tree_only_output_witness :
    Scanner.new wit3Root wit3Cfg = .ok wit3Scanner ∧ wit3Cfg.tree_only_output = true ∧
      wit3Scanner.scan ≠ [] ∧
      generate wit3Cfg wit3Root =
        .ok ("<directory_structure>\n" ++ generate_tree wit3Scanner.scan
          ++ "\n</directory_structure>") :=
  ⟨rfl, rfl, by decide,
    generate_tree_only_output wit3Cfg wit3Root wit3Scanner rfl rfl (by decide)⟩

/-- C7: with `tree_only_output = false` and a non-empty entry list, the
final artifact is exactly `format_full_output` applied to the tree string
and the content string (`app.rs` lines 31-40). -/
theorem generate_full_output (cfg : RuntimeConfig) (root : FSNode) (s : Scanner)
    (hnew : Scanner.new root cfg = .ok s) (htree : cfg.tree_only_output = false)
    (hne : s.scan ≠ []) :
    generate cfg root =
      .ok (format_full_output (generate_tree s.scan) (generate_content root s.scan)) := by
  unfold generate
  rw [hnew]
  have h1 : s.scan.isEmpty = false := by
    cases h : s.scan with
    | nil => exact absurd h hne
    | cons a l => rfl
  simp [h1, htree]

/-- Witness filesystem for C7. -/
def wit7Root : FSNode := .dir "root" (.cons (.file "a.txt" "A") .nil)

/-- Witness configuration for C7: full output requested. -/
def wit7Cfg : RuntimeConfig := ⟨["a.txt"], [], [], false⟩

/-- Witness scanner for C7. -/
def wit7Scanner : Scanner := ⟨wit7Root, ⟨["a.txt"], [], []⟩⟩

/-- Witness for C7 at a concrete filesystem and configuration. -/
theorem generate_full_output_witness :
    Scanner.new wit7Root wit7Cfg = .ok wit7Scanner ∧ wit7Cfg.tree_only_output = false ∧
      wit7Scanner.scan ≠ [] ∧
      generate wit7Cfg wit7Root =
        .ok (format_full_output (generate_tree wit7Scanner.scan)
          (generate_content wit7Root wit7Scanner.scan)) :=
  ⟨rfl, rfl, by decide,
    generate_full_output wit7Cfg wit7Root wit7Scanner rfl rfl (by decide)⟩

/-- C5: the rendering functions are pure functions of the entry list (and,
for content, of the filesystem value passed in): equal entry lists yield
byte-identical tree, content and composed strings, and running the whole
pipeline twice over the same (unchanged) filesystem yields byte-identical
output.  In this embedding every effect is an explicit argument, so
referential transparency holds by construction. -/
theorem rendering_deterministic (cfg : RuntimeConfig) (root : FSNode)
    (es1 es2 : List Entry) (h : es1 = es2) :
    generate_tree es1 = generate_tree es2 ∧
      generate_content root es1 = generate_content root es2 ∧
      format_full_output (generate_tree es1) (generate_content root es1) =
        format_full_output (generate_tree es2) (generate_content root es2) ∧
      generate cfg root = generate cfg root := by
  subst h
  exact ⟨rfl, rfl, rfl, rfl⟩

/-- Witness for C5 at a concrete entry list and filesystem. -/
theorem rendering_deterministic_witness :
    ([⟨["a.txt"], false, true⟩] : List Entry) = [⟨["a.txt"], false, true⟩] ∧
      (generate_tree [⟨["a.txt"], false, true⟩] = generate_tree [⟨["a.txt"], false, true⟩] ∧
        generate_content wit7Root [⟨["a.txt"], false, true⟩] =
          generate_content wit7Root [⟨["a.txt"], false, true⟩] ∧
        format_full_output (generate_tree [⟨["a.txt"], false, true⟩])
            (generate_content wit7Root [⟨["a.txt"], false, true⟩]) =
          format_full_output (generate_tree [⟨["a.txt"], false, true⟩])
            (generate_content wit7Root [⟨["a.txt"], false, true⟩]) ∧
        generate wit7Cfg wit7Root = generate wit7Cfg wit7Root) :=
  ⟨rfl, rendering_deterministic wit7Cfg wit7Root _ _ rfl⟩

/-- C8: when any configured glob pattern is syntactically invalid, the
pipeline fails with a `ConfigError` naming an offending pattern, and it
does so for every filesystem alike — the error arises at `Scanner`
construction (`app.rs` line 23), before any traversal. -/
theorem invalid_pattern_config_error (cfg : RuntimeConfig)
    (hbad : ∃ q ∈ cfg.«include» ++ cfg.exclude ++ cfg.include_in_tree, patternOk q = false) :
    ∃ q, q ∈ cfg.«include» ++ cfg.exclude ++ cfg.include_in_tree ∧ patternOk q = false ∧
      ∀ root : FSNode, generate cfg root = .error (.configError q) := by
  obtain ⟨q0, hq0mem, hq0⟩ := hbad
  have hs : (firstInvalid (cfg.«include» ++ cfg.exclude ++ cfg.include_in_tree)).isSome := by
    unfold firstInvalid
    rw [List.find?_isSome]
    exact ⟨q0, hq0mem, by rw [hq0]; rfl⟩
  obtain ⟨q, hq⟩ := Option.isSome_iff_exists.1 hs
  have hq' : (cfg.«include» ++ cfg.exclude ++ cfg.include_in_tree).find?
      (fun p => !patternOk p) = some q := hq
  refine ⟨q, List.mem_of_find?_eq_some hq', ?_, ?_⟩
  · have := List.find?_some hq'
    simpa using this
  · intro root
    unfold generate Scanner.new
    rw [hq]

/-- Witness configuration for C8: the pattern `[` is an unclosed character
class. -/
def wit8Cfg : RuntimeConfig := ⟨["[", "*.rs"], [], [], false⟩

/-- Witness for C8 at a concrete configuration containing an invalid
pattern. -/
theorem invalid_pattern_config_error_witness :
    (∃ q ∈ wit8Cfg.«include» ++ wit8Cfg.exclude ++ wit8Cfg.include_in_tree,
        patternOk q = false) ∧
      ∃ q, q ∈ wit8Cfg.«include» ++ wit8Cfg.exclude ++ wit8Cfg.include_in_tree ∧
        patternOk q = false ∧
        ∀ root : FSNode, generate wit8Cfg root = .error (.configError q) :=
  ⟨⟨"[", by decide, by decide⟩, invalid_pattern_config_error wit8Cfg ⟨"[", by decide, by decide⟩⟩

/-- C10: when the named preset is absent from the presets file, and
likewise when the presets file does not exist on disk, `build_config`
succeeds and the resulting `RuntimeConfig` is built solely from the
explicitly passed lists (the missing preset contributes empty lists),
with no error reported (`config.rs` lines 28-30 and 62-65). -/
theorem build_config_missing_preset (m : List (String × PresetConfig)) (name : String)
    (inc exc tit : Option (List String)) (t : Bool)
    (habsent : lookupPreset m name = none) :
    build_config (.file (.ok m)) (some name) inc exc tit t =
        .ok ⟨merge_vecs none inc, merge_vecs none exc, merge_vecs none tit, t⟩ ∧
      build_config .noFile (some name) inc exc tit t =
        .ok ⟨merge_vecs none inc, merge_vecs none exc, merge_vecs none tit, t⟩ := by
  constructor
  · unfold build_config load_presets_file
    simp [habsent, PresetConfig.default]
  · unfold build_config load_presets_file
    simp [lookupPreset, PresetConfig.default]

/-- Witness preset map for C10: only `other` is defined. -/
def wit10Map : List (String × PresetConfig) := [("other", ⟨some ["x"], none, none⟩)]

/-- Witness for C10: looking up the absent preset `missing` succeeds and
builds the configuration from the passed lists alone. -/
theorem build_config_missing_preset_witness :
    lookupPreset wit10Map "missing" = none ∧
      (build_config (.file (.ok wit10Map)) (some "missing") (some ["a", "a", "b"]) none none false =
          .ok ⟨merge_vecs none (some ["a", "a", "b"]), merge_vecs none none,
            merge_vecs none none, false⟩ ∧
        build_config .noFile (some "missing") (some ["a", "a", "b"]) none none false =
          .ok ⟨merge_vecs none (some ["a", "a", "b"]), merge_vecs none none,
            merge_vecs none none, false⟩) :=
  ⟨rfl, build_config_missing_preset wit10Map "missing" (some ["a", "a", "b"]) none none false rfl⟩

/-- Counterexample filesystem for C6 as literally stated: `a.txt` sits
inside the directory `sub`. -/
def cex6Root : FSNode :=
  .dir "root" (.cons (.dir "sub" (.cons (.file "a.txt" "A") .nil)) .nil)

/-- Counterexample configuration for C6 as literally stated: the exclude
pattern `sub` matches the directory but not the file path
`sub/a.txt`, which matches only the include-in-tree pattern. -/
def cex6Cfg : RuntimeConfig := ⟨[], ["sub"], ["sub/a.txt"], false⟩

/-- Counterexample scanner for C6 as literally stated. -/
def cex6Scanner : Scanner := ⟨cex6Root, ⟨[], ["sub"], ["sub/a.txt"]⟩⟩

/-- C6 as literally stated is false: the file path `sub/a.txt` matches an
include-in-tree pattern, no include pattern and no exclude pattern, yet it
does not appear in the tree section, because its ancestor directory `sub`
is excluded and is never descended into. -/
theorem include_in_tree_counterexample :
    matchesAny cex6Cfg.include_in_tree ["sub", "a.txt"] = true ∧
      matchesAny cex6Cfg.«include» ["sub", "a.txt"] = false ∧
      matchesAny cex6Cfg.exclude ["sub", "a.txt"] = false ∧
      rootHasFileAt cex6Root ["sub", "a.txt"] = true ∧
      Scanner.new cex6Root cex6Cfg = .ok cex6Scanner ∧
      ["sub", "a.txt"] ∉ treePaths cex6Scanner.scan :=
  ⟨by decide, by decide, by decide, by decide, rfl, by decide⟩

/-- C6, amended: a file whose path matches an include-in-tree pattern but
no include pattern and no exclude pattern, *and whose path has no
nonempty prefix matched by an exclude pattern* (no excluded ancestor
directory), appears in the tree section but never in the content section:
include-in-tree grants tree-only visibility, not content eligibility. -/
theorem include_in_tree_is_tree_only (cfg : RuntimeConfig) (root : FSNode) (s : Scanner)
    (p : List String) (hnew : Scanner.new root cfg = .ok s)
    (hf : rootHasFileAt root p = true)
    (hanc : ∀ q ∈ p.inits, q ≠ [] → matchesAny cfg.exclude q = false)
    (hit : matchesAny cfg.include_in_tree p = true)
    (hninc : matchesAny cfg.«include» p = false) :
    p ∈ treePaths s.scan ∧ p ∉ contentPaths s.scan := by
  obtain ⟨hr, hps⟩ := Scanner.new_ok root cfg s hnew
  constructor
  · cases hroot : root with
    | file n c => rw [hroot] at hf; simp [rootHasFileAt] at hf
    | symlink n t => rw [hroot] at hf; simp [rootHasFileAt] at hf
    | dir n children =>
      rw [hroot] at hf
      rw [rootHasFileAt] at hf
      have hanc' : ∀ q, q ≠ [] → q <+: p → matchesAny s.ps.exclude ([] ++ q) = false := by
        intro q hne hq
        rw [hps]
        simpa using hanc q ((List.mem_inits q p).2 hq) hne
      have hsel : matchesAny s.ps.«include» ([] ++ p) = true ∨
          matchesAny s.ps.include_in_tree ([] ++ p) = true := by
        rw [hps]
        simp only [List.nil_append]
        exact Or.inr hit
      have hmem := scanChildren_finds_file s.ps [] children p hf hanc' hsel
      unfold Scanner.scan
      rw [hr, hroot]
      unfold treePaths
      rw [List.mem_map]
      refine ⟨⟨[] ++ p, false, matchesAny s.ps.«include» ([] ++ p)⟩, ?_, by simp⟩
      rw [mem_sortEntries]
      exact hmem
  · intro hcp
    unfold contentPaths at hcp
    obtain ⟨e, he, hep⟩ := List.mem_map.1 hcp
    have h1 := List.mem_filter.1 he
    have h2 := scan_content_implies_include cfg root s hnew e h1.1 (by simpa using h1.2)
    rw [hep, hninc] at h2
    exact Bool.false_ne_true h2

/-- Witness filesystem for C6: `README.md` exists beside `a.rs`. -/
def wit6Root : FSNode :=
  .dir "root" (.cons (.file "README.md" "RM") (.cons (.file "a.rs" "A") .nil))

/-- Witness configuration for C6: `README.md` is include-in-tree only. -/
def wit6Cfg : RuntimeConfig := ⟨["*.rs"], [], ["README.md"], false⟩

/-- Witness scanner for C6. -/
def wit6Scanner : Scanner := ⟨wit6Root, ⟨["*.rs"], [], ["README.md"]⟩⟩

/-- Witness for C6: `README.md` is listed by the tree but not by the
content section. -/
theorem include_in_tree_is_tree_only_witness :
    Scanner.new wit6Root wit6Cfg = .ok wit6Scanner ∧
      rootHasFileAt wit6Root ["README.md"] = true ∧
      (∀ q ∈ (["README.md"] : List String).inits, q ≠ [] →
        matchesAny wit6Cfg.exclude q = false) ∧
      matchesAny wit6Cfg.include_in_tree ["README.md"] = true ∧
      matchesAny wit6Cfg.«include» ["README.md"] = false ∧
      (["README.md"] ∈ treePaths wit6Scanner.scan ∧
        ["README.md"] ∉ contentPaths wit6Scanner.scan) :=
  ⟨rfl, by decide, by decide, by decide, by decide,
    include_in_tree_is_tree_only wit6Cfg wit6Root wit6Scanner ["README.md"] rfl
      (by decide) (by decide) (by decide) (by decide)⟩

/-- C9: the scan total function never recurses through a symlink: on any
well-formed filesystem value — including one whose symlink target is
cyclic, since a symlink stores only a target string — no scanned entry
lies strictly below a symlink path, and an entry at a symlink path is a
leaf (`is_dir = false`).  Termination on such filesystems holds by
construction: `Scanner.scan` is a total function of the finite filesystem
value, in which a symlink never carries a subtree. -/
theorem scan_never_descends_symlink (cfg : RuntimeConfig) (root : FSNode) (s : Scanner)
    (hnew : Scanner.new root cfg = .ok s) (hwf : wellFormed root = true)
    (sp : List String) (hsp : sp ∈ symlinkPathsRoot root)
    (e : Entry) (he : e ∈ s.scan) :
    ¬(sp <+: e.path ∧ sp.length < e.path.length) ∧ (e.path = sp → e.is_dir = false) := by
  obtain ⟨hr, hps⟩ := Scanner.new_ok root cfg s hnew
  cases hroot : root with
  | file n c => rw [hroot] at hsp; simp [symlinkPathsRoot] at hsp
  | symlink n t => rw [hroot] at hsp; simp [symlinkPathsRoot] at hsp
  | dir n children =>
    rw [hroot] at hsp hwf
    rw [symlinkPathsRoot] at hsp
    rw [wellFormed, Bool.and_eq_true] at hwf
    unfold Scanner.scan at he
    rw [hr, hroot] at he
    have he2 := (mem_sortEntries e _).1 he
    exact scanChildren_no_descend s.ps [] children hwf.1 hwf.2 sp hsp e he2

/-- Witness filesystem for C9: `d/loop` is a symlink whose target `../d`
points back at its own containing directory. -/
def wit9Root : FSNode :=
  .dir "root" (.cons (.dir "d" (.cons (.symlink "loop" "../d")
    (.cons (.file "a.rs" "A") .nil))) .nil)

/-- Witness configuration for C9: everything matches. -/
def wit9Cfg : RuntimeConfig := ⟨["**/*"], [], [], false⟩

/-- Witness scanner for C9. -/
def wit9Scanner : Scanner := ⟨wit9Root, ⟨["**/*"], [], []⟩⟩

/-- Witness for C9: on the cyclic-symlink filesystem the scan evaluates to
a concrete finite entry list in which the symlink appears as a leaf, and
the no-descent property holds at the symlink path. -/
theorem scan_never_descends_symlink_witness :
    Scanner.new wit9Root wit9Cfg = .ok wit9Scanner ∧ wellFormed wit9Root = true ∧
      ["d", "loop"] ∈ symlinkPathsRoot wit9Root ∧
      wit9Scanner.scan = [⟨["d"], true, false⟩, ⟨["d", "a.rs"], false, true⟩,
        ⟨["d", "loop"], false, true⟩] ∧
      (⟨["d", "loop"], false, true⟩ : Entry) ∈ wit9Scanner.scan ∧
      (¬(["d", "loop"] <+: (⟨["d", "loop"], false, true⟩ : Entry).path ∧
          (["d", "loop"] : List String).length <
            (⟨["d", "loop"], false, true⟩ : Entry).path.length) ∧
        ((⟨["d", "loop"], false, true⟩ : Entry).path = ["d", "loop"] →
          (⟨["d", "loop"], false, true⟩ : Entry).is_dir = false)) :=
  ⟨rfl, by decide, by decide, by decide, by decide,
    scan_never_descends_symlink wit9Cfg wit9Root wit9Scanner rfl (by decide)
      ["d", "loop"] (by decide) ⟨["d", "loop"], false, true⟩ (by decide)⟩

/-- C4: `merge_vecs` returns the ordered union of preset items followed by
CLI items, duplicates removed keeping the first occurrence of each string;
a `None` input contributes nothing. -/
theorem merge_vecs_is_orderedUnion (preset_vec cli_vec : Option (List String)) :
    merge_vecs preset_vec cli_vec = orderedUnion preset_vec cli_vec := by
  unfold merge_vecs orderedUnion
  rw [dedupFirst_eq_foldl _ [] [] (by simp)]
  rfl

end CodeContext
